import Mathlib

/-!
Verification of the orchestration core (Factory / Basis / Project / Target)
of a pluggable environment manager, shallowly embedded from the Go sources
`internal/core/factory.go` and `internal/core/project.go`.

External collaborators (Persistence Client, Plugin Manager, filesystem,
logger, terminal UI) are modelled as pure inputs: a remote call's outcome is
a parameter of the embedded function, and logging / UI calls are elided.
In-memory Go pointers are modelled as `Nat` tokens into an explicit heap,
so pointer identity becomes token equality.
-/

/- ### Default-provider selection (`Project.DefaultProvider`, project.go) -/

/-- Options record for `DefaultProvider` (`core.DefaultProviderOptions`):
an optional machine-name filter, excluded provider names, the force-default
flag and the check-usable flag. -/
structure DefaultProviderOptions where
  machineName : String
  excluded : List String
  forceDefault : Bool
  checkUsable : Bool
deriving Repr, DecidableEq

/-- `opts.IsExcluded(name)`: membership in the excluded provider set. -/
def DefaultProviderOptions.IsExcluded (o : DefaultProviderOptions) (n : String) : Bool :=
  o.excluded.contains n

/-- One machine configuration entry: its name and the declared provider
types of its `config.vm.provider` calls, in declaration order. -/
structure MachineConfig where
  name : String
  providers : List String
deriving Repr, DecidableEq

/-- One installed provider plugin as listed by the plugin manager:
its name and the (pure) outcome of its `Usable()` check. -/
structure PluginProvider where
  name : String
  usable : Bool
deriving Repr, DecidableEq

/-- The `configProviders` accumulation loop of `DefaultProvider`: for every
machine configuration entry (skipped when a machine-name filter is given and
does not match), append its declared provider types in order. -/
def configProviders (opts : DefaultProviderOptions) (machines : List MachineConfig) :
    List String :=
  machines.foldl
    (fun acc m =>
      if opts.machineName ≠ "" ∧ opts.machineName ≠ m.name then acc
      else acc ++ m.providers)
    []

/-- The `usableProviders` accumulation loop of `DefaultProvider`: for every
installed provider plugin, skip it when excluded, skip it when `CheckUsable`
is set and its usability check fails, otherwise append its name. -/
def usableProviders (opts : DefaultProviderOptions) (plugins : List PluginProvider) :
    List String :=
  plugins.foldl
    (fun acc pp =>
      if opts.IsExcluded pp.name then acc
      else if opts.checkUsable ∧ pp.usable = false then acc
      else acc ++ [pp.name])
    []

/-- Whitespace test used by the embedded `strings.TrimSpace` (ASCII part). -/
def isSpaceChar (c : Char) : Bool := c = ' ' ∨ c = '\t' ∨ c = '\n' ∨ c = '\r'

/-- Drop whitespace from both ends of a character list (`strings.TrimSpace`). -/
def trimChars (l : List Char) : List Char :=
  ((l.dropWhile isSpaceChar).reverse.dropWhile isSpaceChar).reverse

/-- Embedded `strings.TrimSpace` on strings. -/
def goTrimSpace (s : String) : String := ⟨trimChars s.toList⟩

/-- Embedded `strings.Split(s, ",")` on characters: splitting the empty
string yields one empty field, exactly as in Go. -/
def splitCommaChars : List Char → List (List Char)
  | [] => [[]]
  | c :: rest =>
    match splitCommaChars rest with
    | [] => []
    | cur :: done => if c = ',' then [] :: cur :: done else (c :: cur) :: done

/-- Embedded `strings.Split(s, ",")` on strings. -/
def goSplitComma (s : String) : List String := (splitCommaChars s.toList).map (fun l => ⟨l⟩)

/-- Parsing of the preferred-providers environment variable
(`VAGRANT_PREFERRED_PROVIDERS`): split on commas, trim whitespace, drop
empty entries, preserve order (the trim/select loop in `DefaultProvider`). -/
def parsePreferredProviders (raw : String) : List String :=
  ((goSplitComma raw).map goTrimSpace).filter (fun s => s ≠ "")

/-- `Project.DefaultProvider` (project.go). The two environment variables
and the collaborator answers (machine configurations, plugin listing with
usability outcomes) are passed as inputs. Error returns of the plugin
manager and of `Usable()` are not modelled (collaborator failures). -/
def Project.DefaultProvider (defaultEnv preferredEnv : String)
    (opts : DefaultProviderOptions) (machines : List MachineConfig)
    (plugins : List PluginProvider) : Except String String :=
  let defaultProvider := defaultEnv
  if defaultProvider ≠ "" ∧ opts.forceDefault = true then
    Except.ok defaultProvider
  else
    let configP := configProviders opts machines
    let usableP := usableProviders opts plugins
    -- for _, u := range usableProviders { if u == defaultProvider { return u } }
    match usableP.find? (fun u => u == defaultProvider) with
    | some u => Except.ok u
    | none =>
      let preferredP := parsePreferredProviders preferredEnv
      -- step 2.5: triple-nested loop over config / usable / preferred
      match configP.findSome?
          (fun cp =>
            if usableP.contains cp then preferredP.find? (fun pp => cp == pp)
            else none) with
      | some pp => Except.ok pp
      | none =>
        -- step 3: first configured provider also usable
        match configP.find? (fun cp => usableP.contains cp) with
        | some cp => Except.ok cp
        | none =>
          -- step 3.5: first preferred provider also usable
          match preferredP.find? (fun pp => usableP.contains pp) with
          | some pp => Except.ok pp
          | none =>
            -- step 4: first usable provider, else no default provider
            match usableP with
            | u :: _ => Except.ok u
            | [] => Except.error "No default provider."

/-- Restatement of claim C1's tier list in its own words, for comparison
with `Project.DefaultProvider`: environment default if usable; else first
configured provider usable and preferred; else first configured provider
usable; else first preferred entry usable; else head of the usable list;
else a no-default-provider error. -/
def defaultProviderTiers (dflt : String) (config usable preferred : List String) :
    Except String String :=
  if usable.contains dflt then Except.ok dflt
  else
    match config.find? (fun c => usable.contains c && preferred.contains c) with
    | some c => Except.ok c
    | none =>
      match config.find? (fun c => usable.contains c) with
      | some c => Except.ok c
      | none =>
        match preferred.find? (fun c => usable.contains c) with
        | some c => Except.ok c
        | none =>
          match usable.head? with
          | some u => Except.ok u
          | none => Except.error "No default provider."

/- ### In-memory Project state: the targets map and Target instances
(project.go, `Project.LoadTarget` and `Project.Target`) -/

/-- The persisted record carried by a live Target instance
(`t.target`): identity, provider assignment and activity state.
`active` is the (pure) outcome of the target's `State().IsActive()`. -/
structure TargetRecord where
  resourceId : String
  name : String
  provider : String
  active : Bool
deriving Repr, DecidableEq

/-- In-memory state of one Project: the heap of live Target instances
(Go pointers become `Nat` tokens), the `p.targets` registration map keyed
by resource id, the tokens that have the close-time save action attached,
and the allocator for fresh instance tokens. -/
structure ProjectState where
  heap : List (Nat × TargetRecord)
  targets : List (String × Nat)
  saveOnClose : List Nat
  nextId : Nat
deriving Repr, DecidableEq

/-- Go map read `m[k]` on a string-keyed map of instance tokens. -/
def lookupTok (l : List (String × Nat)) (k : String) : Option Nat :=
  (l.find? (fun q => q.1 == k)).map (fun q => q.2)

/-- Dereference an instance token in the heap. -/
def heapGet (h : List (Nat × TargetRecord)) (tok : Nat) : Option TargetRecord :=
  (h.find? (fun q => q.1 == tok)).map (fun q => q.2)

/-- Overwrite the record held by an instance token (a field assignment
through a Go pointer). -/
def heapSet (h : List (Nat × TargetRecord)) (tok : Nat) (r : TargetRecord) :
    List (Nat × TargetRecord) :=
  h.map (fun q => if q.1 == tok then (q.1, r) else q)

/-- A `TargetOption` mutates the target shell under construction and may
report an error (`func(*Target) error`). -/
def TargetOption := TargetRecord → TargetRecord × Option String

/-- The zero-valued target shell allocated at the top of `LoadTarget`
(`t = &Target{...}` before options are applied). -/
def emptyTargetShell : TargetRecord := ⟨"", "", "", false⟩

/-- The option-application loop of `LoadTarget`: every option runs, its
mutation is kept, and errors are collected in order (`multierror.Append`). -/
def applyTargetOptions : TargetRecord → List TargetOption → TargetRecord × List String
  | t, [] => (t, [])
  | t, o :: rest =>
    let (t', e) := o t
    let (t'', errs) := applyTargetOptions t' rest
    (t'', (match e with | none => [] | some x => [x]) ++ errs)

/-- `Project.LoadTarget` (project.go): construct a fresh shell, apply the
options (returning their aggregated errors, if any), and register the
result — unless a Target with the resolved resource id is already loaded,
in which case the shell is discarded and the existing instance returned.
The data-directory creation and logger renaming are external effects and
are elided; the close-time save action is recorded in `saveOnClose`. -/
def Project.LoadTarget (topts : List TargetOption) (st : ProjectState) :
    Except (List String) (Nat × ProjectState) :=
  let tok := st.nextId
  let (t, errs) := applyTargetOptions emptyTargetShell topts
  if errs ≠ [] then Except.error errs
  else
    match lookupTok st.targets t.resourceId with
    | some existing => Except.ok (existing, { st with nextId := st.nextId + 1 })
    | none =>
        Except.ok (tok,
          { heap := (tok, t) :: st.heap,
            targets := (t.resourceId, tok) :: st.targets,
            saveOnClose := tok :: st.saveOnClose,
            nextId := st.nextId + 1 })

/-- Result of `Project.Target`: a loaded instance (with the possibly
updated project state), or delegation to `LoadTarget` with a ref using the
lookup string as both name and resource id, plus the provider option. -/
inductive TargetLookupResult
  | found (tok : Nat) (st : ProjectState)
  | fallback (name resourceId provider : String)
deriving Repr, DecidableEq

/-- The fallback scan of `Project.Target` over the loaded-targets map: on a
name match, overwrite the provider field only when a provider override was
supplied and the target is not active, then return the instance; on a
resource-id match return the instance unchanged. `State()` is modelled by
the pure `active` field (its error return is a collaborator failure). -/
def Project.TargetScan (nameOrId provider : String) (st : ProjectState) :
    List (String × Nat) → TargetLookupResult
  | [] => TargetLookupResult.fallback nameOrId nameOrId provider
  | (_, tok) :: rest =>
    match heapGet st.heap tok with
    | none => Project.TargetScan nameOrId provider st rest
    | some r =>
      if r.name == nameOrId then
        if provider ≠ "" ∧ r.active = false then
          TargetLookupResult.found tok
            { st with heap := heapSet st.heap tok { r with provider := provider } }
        else TargetLookupResult.found tok st
      else if r.resourceId == nameOrId then TargetLookupResult.found tok st
      else Project.TargetScan nameOrId provider st rest

/-- `Project.Target` (project.go): exact resource-id hit in the map first,
then the fallback scan, then delegation to `LoadTarget`. -/
def Project.Target (nameOrId provider : String) (st : ProjectState) : TargetLookupResult :=
  match lookupTok st.targets nameOrId with
  | some tok => TargetLookupResult.found tok st
  | none => Project.TargetScan nameOrId provider st st.targets

/- ### Factory (`Factory.New`, factory.go) -/

/-- Process-wide Factory state: the name-keyed registry of live Basis
instances, the allocator for Basis instance tokens, and the instances that
were closed and discarded by the post-construction re-check. -/
structure FactoryState where
  registered : List (String × Nat)
  nextId : Nat
  closed : List Nat
deriving Repr, DecidableEq

/-- `Factory.New` (factory.go). Basis construction (`NewBasis` with the
appended options) is a collaborator: its outcome `build` is either an
error or the constructed basis's resolved name; the constructed candidate
instance is the fresh token `st.nextId`. The plugin-manager sub-scope and
the two closers attached on a win are external effects and are elided. -/
def Factory.New (name : String) (build : Except String String) (st : FactoryState) :
    Except String Nat × FactoryState :=
  match (if name ≠ "" then lookupTok st.registered name else none) with
  | some b => (Except.ok b, st)
  | none =>
    match build with
    | Except.error e => (Except.error e, st)
    | Except.ok rname =>
      match lookupTok st.registered rname with
      | some existing =>
          (Except.ok existing,
           { st with nextId := st.nextId + 1, closed := st.nextId :: st.closed })
      | none =>
          (Except.ok st.nextId,
           { st with registered := (rname, st.nextId) :: st.registered,
                     nextId := st.nextId + 1 })

/-- Events of one `Factory.New` call, for the lock discipline: the mutex
acquire/release (`f.m.Lock()` / the deferred `f.m.Unlock()`), Basis
construction with option application, the registry write, and the
discard-close of a losing candidate. -/
inductive FactoryEvent
  | lock
  | unlock
  | construct
  | applyOptions
  | registryWrite
  | discardClose
deriving Repr, DecidableEq

/-- The event trace of `Factory.New` (factory.go): the lock is taken at
entry and released by `defer` at return, with the same control flow as
`Factory.New` in between. -/
def Factory.NewEvents (name : String) (build : Except String String) (st : FactoryState) :
    List FactoryEvent :=
  FactoryEvent.lock ::
    (match (if name ≠ "" then lookupTok st.registered name else none) with
     | some _ => [FactoryEvent.unlock]
     | none =>
       FactoryEvent.construct :: FactoryEvent.applyOptions ::
         (match build with
          | Except.error _ => [FactoryEvent.unlock]
          | Except.ok rname =>
            match lookupTok st.registered rname with
            | some _ => [FactoryEvent.discardClose, FactoryEvent.unlock]
            | none => [FactoryEvent.registryWrite, FactoryEvent.unlock]))

/-- Number of occurrences of an event in a trace. -/
def countEvent (e : FactoryEvent) (evs : List FactoryEvent) : Nat :=
  (evs.filter (fun x => x == e)).length

/-- The registry lock is held just before position `i` of the trace:
strictly more acquisitions than releases among the first `i` events. -/
def lockHeldAt (evs : List FactoryEvent) (i : Nat) : Prop :=
  countEvent FactoryEvent.unlock (evs.take i) < countEvent FactoryEvent.lock (evs.take i)

instance (evs : List FactoryEvent) (i : Nat) : Decidable (lockHeldAt evs i) :=
  Nat.decLt _ _

/- ### `Project.InitTargets` (project.go) -/

/-- Outcome of `InitTargets`: the returned error, and whether
`refreshProject` was invoked afterwards. -/
structure InitTargetsOutcome where
  err : Option String
  refreshed : Bool
deriving Repr, DecidableEq

/-- The upsert loop of `InitTargets`: nil machine-config entries are
skipped; the first upsert error is returned immediately; `updated` is set
after every successful upsert. Returns (updated, first error). -/
def Project.InitTargetsLoop (upsert : String → Option String) :
    List (Option String) → Bool → Bool × Option String
  | [], updated => (updated, none)
  | none :: rest, updated => Project.InitTargetsLoop upsert rest updated
  | some cfg :: rest, updated =>
    match upsert cfg with
    | some e => (updated, some e)
    | none => Project.InitTargetsLoop upsert rest true

/-- `Project.InitTargets` (project.go): no-op when the configuration or its
machine-config list is nil; otherwise run the upsert loop and, when the
loop completed and at least one upsert succeeded, invoke `refreshProject`
(whose own error outcome is the collaborator input `refreshErr`). -/
def Project.InitTargets (machineConfigs : Option (List (Option String)))
    (upsert : String → Option String) (refreshErr : Option String) : InitTargetsOutcome :=
  match machineConfigs with
  | none => ⟨none, false⟩
  | some cfgs =>
    match Project.InitTargetsLoop upsert cfgs false with
    | (_, some e) => ⟨some e, false⟩
    | (updated, none) =>
      if updated then ⟨refreshErr, true⟩ else ⟨none, false⟩

/-- Concrete upsert outcomes for the C6 counterexample: the "web" entry
upserts fine, every other entry fails. -/
def initUpsertMixed : String → Option String :=
  fun c => if c = "web" then none else some "upsert failed"

/- ### `Project.Close` (project.go) -/

/-- `err = multierror.Append(err, cerr)` on an accumulated failure list. -/
def appendCloseErr (acc : List String) (e : Option String) : List String :=
  match e with
  | none => acc
  | some x => acc ++ [x]

/-- `Project.Close` (project.go): close every loaded target (collecting
failures), run every registered closer (collecting failures), then delete
the project from its basis's project map. Each target is given with the
(pure) outcome of its own `Close()`, each closer with its outcome.
Returns (target names whose close was attempted, aggregated failures,
remaining basis project names). -/
def Project.Close (targets : List (String × Option String))
    (closers : List (Option String)) (basisProjects : List String) (name : String) :
    List String × List String × List String :=
  let step := fun (acc : List String × List String) (t : String × Option String) =>
    (acc.1 ++ [t.1], appendCloseErr acc.2 t.2)
  let (attempted, errs₁) := targets.foldl step ([], [])
  let errs := closers.foldl appendCloseErr errs₁
  (attempted, errs, basisProjects.erase name)

/- ### `Project.TargetIds` / `Project.TargetNames` (project.go) -/

/-- One entry of the project's persisted target-reference list
(`p.project.Targets`). -/
structure TargetRef where
  resourceId : String
  name : String
deriving Repr, DecidableEq

/-- `Project.TargetIds` (project.go): the resource ids of the persisted
target-reference list, in order. -/
def Project.TargetIds (projTargets : List TargetRef) : List String :=
  projTargets.map (fun t => t.resourceId)

/-- `Project.TargetNames` (project.go): the names of the persisted
target-reference list, in order. -/
def Project.TargetNames (projTargets : List TargetRef) : List String :=
  projTargets.map (fun t => t.name)

/-- The reference list recorded after loading `n` distinct test targets
with ids `id-0..id-(n-1)` and names `target-0..target-(n-1)`. -/
def mkTestTargetRefs (n : Nat) : List TargetRef :=
  (List.range n).map (fun i => ⟨"id-" ++ toString i, "target-" ++ toString i⟩)

/- ### `Project.Save` (project.go) -/

/-- The project's own persisted record (`p.project`). -/
structure ProjectRecord where
  resourceId : String
deriving Repr, DecidableEq

/-- The response of `UpsertProject`, carrying the stored project record. -/
structure UpsertProjectResponse where
  project : ProjectRecord
deriving Repr, DecidableEq

/-- `Project.Save` (project.go), transliterated: `result, err :=
UpsertProject(...)`; on error the code only logs — there is no early
return — and then unconditionally runs `p.project = result.Project`.
The call outcome is given Go-style as (response-or-nil, error-or-nil);
dereferencing a nil response is a crash, modelled as `none`; otherwise the
new record and the returned error are produced. -/
def Project.Save (call : Option UpsertProjectResponse × Option String)
    (_record : ProjectRecord) : Option (ProjectRecord × Option String) :=
  let (result, err) := call
  match result with
  | none => none
  | some resp => some (resp.project, err)

lemma find_eq_self_of_beq (cp : String) (l : List String) :
    l.find? (fun pp => cp == pp) = if l.contains cp then some cp else none := by
  induction l with
  | nil => simp
  | cons a t ih =>
    by_cases h : cp = a
    · subst h; simp [List.find?]
    · simp only [List.find?, List.contains_cons]
      have hb : (cp == a) = false := by simpa using h
      have hb' : (a == cp) = false := by simpa using (Ne.symm h)
      simp [hb, hb', ih]

lemma find_target_eq (d : String) (l : List String) :
    l.find? (fun u => u == d) = if l.contains d then some d else none := by
  induction l with
  | nil => simp
  | cons a t ih =>
    by_cases h : a = d
    · subst h; simp [List.find?]
    · simp only [List.find?, List.contains_cons]
      have hb : (a == d) = false := by simpa using h
      have hb' : (d == a) = false := by simpa using (Ne.symm h)
      simp [hb, hb', ih]

lemma findSome_guard_eq (p q : String → Bool) (l : List String) :
    l.findSome? (fun c => if p c then (if q c then some c else none) else none) =
      l.find? (fun c => p c && q c) := by
  induction l with
  | nil => rfl
  | cons a t ih =>
    simp only [List.findSome?, List.find?]
    cases hp : p a <;> cases hq : q a <;> simp [ih]

lemma findSome_pref_eq (config usable preferred : List String) :
    config.findSome?
        (fun cp =>
          if usable.contains cp then preferred.find? (fun pp => cp == pp)
          else none) =
      config.find? (fun c => usable.contains c && preferred.contains c) := by
  have h1 : (fun cp =>
        if usable.contains cp then preferred.find? (fun pp => cp == pp) else none) =
      (fun cp =>
        if usable.contains cp then (if preferred.contains cp then some cp else none)
        else none) := by
    funext cp; rw [find_eq_self_of_beq]
  rw [h1]
  exact findSome_guard_eq (fun c => usable.contains c) (fun c => preferred.contains c) config

/-- C1: with no forced environment override, `Project.DefaultProvider` is
determined by ordered tiers — environment default if usable; else first
configured provider that is usable and preferred; else first configured
provider that is usable; else first preferred entry that is usable; else
the first usable provider; else a "no default provider" error. -/
theorem Project.DefaultProvider_tiers (defaultEnv preferredEnv : String)
    (opts : DefaultProviderOptions) (machines : List MachineConfig)
    (plugins : List PluginProvider)
    (h : ¬(defaultEnv ≠ "" ∧ opts.forceDefault = true)) :
    Project.DefaultProvider defaultEnv preferredEnv opts machines plugins =
      defaultProviderTiers defaultEnv (configProviders opts machines)
        (usableProviders opts plugins) (parsePreferredProviders preferredEnv) := by
  unfold Project.DefaultProvider defaultProviderTiers
  rw [if_neg h]
  simp only [find_target_eq, findSome_pref_eq]
  cases hd : (usableProviders opts plugins).contains defaultEnv with
  | true => simp
  | false =>
    simp only [Bool.false_eq_true, if_false]
    cases hfind : (configProviders opts machines).find?
        (fun c => (usableProviders opts plugins).contains c &&
          (parsePreferredProviders preferredEnv).contains c) with
    | some c => rfl
    | none =>
      cases h3 : (configProviders opts machines).find?
          (fun c => (usableProviders opts plugins).contains c) with
      | some c => rfl
      | none =>
        cases h35 : (parsePreferredProviders preferredEnv).find?
            (fun c => (usableProviders opts plugins).contains c) with
        | some c => rfl
        | none =>
          cases husable : usableProviders opts plugins with
          | nil => rfl
          | cons u rest => rfl

/-- Witness for C1 at the claim's concrete input: configured
["virtualbox","vmware"], usable ["vmware"], no preferred list, no override:
the tiers apply and the result is "vmware". -/
theorem Project.DefaultProvider_tiers_witness :
    Project.DefaultProvider "" "" ⟨"", [], false, false⟩
        [⟨"default", ["virtualbox", "vmware"]⟩] [⟨"vmware", true⟩] =
      defaultProviderTiers ""
        (configProviders ⟨"", [], false, false⟩ [⟨"default", ["virtualbox", "vmware"]⟩])
        (usableProviders ⟨"", [], false, false⟩ [⟨"vmware", true⟩])
        (parsePreferredProviders "")
    ∧ Project.DefaultProvider "" "" ⟨"", [], false, false⟩
        [⟨"default", ["virtualbox", "vmware"]⟩] [⟨"vmware", true⟩] =
      Except.ok "vmware" :=
  ⟨Project.DefaultProvider_tiers "" "" ⟨"", [], false, false⟩
      [⟨"default", ["virtualbox", "vmware"]⟩] [⟨"vmware", true⟩] (by simp),
   by rfl⟩

/-- C2: if a Target with the resolved resource id is already registered,
`LoadTarget` discards the freshly constructed shell and returns the
already-registered instance with the registration map untouched; hence
loading the same resource id twice returns the same instance both times. -/
theorem Project.LoadTarget_idempotent (topts : List TargetOption) (st : ProjectState) :
    (∀ t tok, applyTargetOptions emptyTargetShell topts = (t, []) →
        lookupTok st.targets t.resourceId = some tok →
        Project.LoadTarget topts st = Except.ok (tok, { st with nextId := st.nextId + 1 }))
    ∧ (∀ tok₁ st₁, Project.LoadTarget topts st = Except.ok (tok₁, st₁) →
        ∃ st₂, Project.LoadTarget topts st₁ = Except.ok (tok₁, st₂)) := by
  constructor
  · intro t tok hApply hLook
    simp only [Project.LoadTarget, hApply, hLook]
    simp
  · intro tok₁ st₁ h
    rcases hApply : applyTargetOptions emptyTargetShell topts with ⟨t, errs⟩
    rcases errs with _ | ⟨e, errs⟩
    · rcases hLook : lookupTok st.targets t.resourceId with _ | ex
      · simp only [Project.LoadTarget, hApply, hLook] at h
        simp at h
        obtain ⟨htok, hst⟩ := h
        refine ⟨{ st₁ with nextId := st₁.nextId + 1 }, ?_⟩
        simp only [Project.LoadTarget, hApply]
        have hLook₁ : lookupTok st₁.targets t.resourceId = some tok₁ := by
          subst hst
          simp [lookupTok, List.find?, htok]
        simp [hLook₁]
      · simp only [Project.LoadTarget, hApply, hLook] at h
        simp at h
        obtain ⟨htok, hst⟩ := h
        refine ⟨{ st₁ with nextId := st₁.nextId + 1 }, ?_⟩
        simp only [Project.LoadTarget, hApply]
        have hLook₁ : lookupTok st₁.targets t.resourceId = some tok₁ := by
          subst hst
          simpa [htok] using hLook
        simp [hLook₁]
    · simp only [Project.LoadTarget, hApply] at h
      simp at h

/-- Witness for C2: a target with resource id "id-one" is already loaded as
instance 0; loading that resource id again returns instance 0 and leaves
the registration map untouched. -/
theorem Project.LoadTarget_idempotent_witness :
    Project.LoadTarget
        [fun t => ({ t with resourceId := "id-one", name := "target-one" }, none)]
        ⟨[(0, ⟨"id-one", "target-one", "virtualbox", false⟩)], [("id-one", 0)], [0], 1⟩ =
      Except.ok (0,
        { heap := [(0, ⟨"id-one", "target-one", "virtualbox", false⟩)],
          targets := [("id-one", 0)], saveOnClose := [0], nextId := 2 }) :=
  (Project.LoadTarget_idempotent
      [fun t => ({ t with resourceId := "id-one", name := "target-one" }, none)]
      ⟨[(0, ⟨"id-one", "target-one", "virtualbox", false⟩)], [("id-one", 0)], [0], 1⟩).1
    ⟨"id-one", "target-one", "", false⟩ 0 rfl rfl

lemma heapGet_heapSet_ne (hp : List (Nat × TargetRecord)) (tok tok' : Nat)
    (r : TargetRecord) (hne : tok ≠ tok') :
    heapGet (heapSet hp tok' r) tok = heapGet hp tok := by
  induction hp with
  | nil => rfl
  | cons q rest ih =>
    rcases q with ⟨k, v⟩
    by_cases hk : k = tok
    · subst hk
      have h1 : (k == tok') = false := by simpa using hne
      simp [heapSet, heapGet, List.find?, h1]
    · have h2 : (k == tok) = false := by simpa using hk
      by_cases hk' : k = tok'
      · subst hk'
        simpa [heapSet, heapGet, List.find?, h2] using ih
      · have h3 : (k == tok') = false := by simpa using hk'
        simpa [heapSet, heapGet, List.find?, h2, h3] using ih

lemma targetScan_found_cases (nameOrId provider : String) (st : ProjectState) :
    ∀ l tok st',
      Project.TargetScan nameOrId provider st l = TargetLookupResult.found tok st' →
      st' = st ∨
      ∃ r, heapGet st.heap tok = some r ∧ r.name = nameOrId ∧ provider ≠ "" ∧
        r.active = false ∧
        st' = { st with heap := heapSet st.heap tok { r with provider := provider } } := by
  intro l
  induction l with
  | nil =>
    intro tok st' h
    simp [Project.TargetScan] at h
  | cons q rest ih =>
    rcases q with ⟨k, tk⟩
    intro tok st' h
    simp only [Project.TargetScan] at h
    split at h
    · exact ih tok st' h
    · rename_i r hg
      split at h
      · rename_i hn
        split at h
        · rename_i hcond
          injection h with h1 h2
          subst h1
          exact Or.inr ⟨r, hg, eq_of_beq hn, hcond.1, hcond.2, h2.symm⟩
        · injection h with h1 h2
          exact Or.inl h2.symm
      · split at h
        · injection h with h1 h2
          exact Or.inl h2.symm
        · exact ih tok st' h

/-- C5: an exact resource-id hit in the loaded-target map is returned
directly with the state unchanged; any state change made by the lookup is
exactly a provider overwrite on a name-matched target that is not active
while a provider override was supplied; consequently an active target's
record is never modified through this lookup path. -/
theorem Project.Target_provider_guard (nameOrId provider : String) (st : ProjectState) :
    (∀ tok, lookupTok st.targets nameOrId = some tok →
        Project.Target nameOrId provider st = TargetLookupResult.found tok st)
    ∧ (∀ tok st',
        Project.Target nameOrId provider st = TargetLookupResult.found tok st' →
        st' = st ∨
        ∃ r, heapGet st.heap tok = some r ∧ r.name = nameOrId ∧ provider ≠ "" ∧
          r.active = false ∧
          st' = { st with heap := heapSet st.heap tok { r with provider := provider } })
    ∧ (∀ tok r, heapGet st.heap tok = some r → r.active = true →
        ∀ tok' st',
          Project.Target nameOrId provider st = TargetLookupResult.found tok' st' →
          heapGet st'.heap tok = some r) := by
  have hmain : ∀ tok st',
      Project.Target nameOrId provider st = TargetLookupResult.found tok st' →
      st' = st ∨
      ∃ r, heapGet st.heap tok = some r ∧ r.name = nameOrId ∧ provider ≠ "" ∧
        r.active = false ∧
        st' = { st with heap := heapSet st.heap tok { r with provider := provider } } := by
    intro tok st' h
    unfold Project.Target at h
    split at h
    · injection h with h1 h2
      exact Or.inl h2.symm
    · exact targetScan_found_cases nameOrId provider st st.targets tok st' h
  refine ⟨?_, hmain, ?_⟩
  · intro tok h
    simp [Project.Target, h]
  · intro tok r hg ha tok' st' h
    rcases hmain tok' st' h with rfl | ⟨r', hg', _, _, ha', hst'⟩
    · exact hg
    · subst hst'
      by_cases htt : tok = tok'
      · subst htt
        rw [hg] at hg'
        injection hg' with he
        rw [← he] at ha'
        rw [ha] at ha'
        exact absurd ha' (by simp)
      · rw [heapGet_heapSet_ne st.heap tok tok' _ htt]
        exact hg

/-- Witness for C5: an exact resource-id hit returns the active target
directly, and the active target's record is untouched even though a
provider override was supplied. -/
theorem Project.Target_provider_guard_witness :
    Project.Target "id-one" "virtualbox"
        ⟨[(0, ⟨"id-one", "target-one", "vmware", true⟩)], [("id-one", 0)], [0], 1⟩ =
      TargetLookupResult.found 0
        ⟨[(0, ⟨"id-one", "target-one", "vmware", true⟩)], [("id-one", 0)], [0], 1⟩
    ∧ heapGet
        (⟨[(0, ⟨"id-one", "target-one", "vmware", true⟩)], [("id-one", 0)], [0],
          1⟩ : ProjectState).heap 0 = some ⟨"id-one", "target-one", "vmware", true⟩ :=
  ⟨(Project.Target_provider_guard "id-one" "virtualbox"
      ⟨[(0, ⟨"id-one", "target-one", "vmware", true⟩)], [("id-one", 0)], [0], 1⟩).1 0 rfl,
   (Project.Target_provider_guard "id-one" "virtualbox"
      ⟨[(0, ⟨"id-one", "target-one", "vmware", true⟩)], [("id-one", 0)], [0], 1⟩).2.2 0
     ⟨"id-one", "target-one", "vmware", true⟩ rfl rfl 0
     ⟨[(0, ⟨"id-one", "target-one", "vmware", true⟩)], [("id-one", 0)], [0], 1⟩
     ((Project.Target_provider_guard "id-one" "virtualbox"
        ⟨[(0, ⟨"id-one", "target-one", "vmware", true⟩)], [("id-one", 0)], [0], 1⟩).1 0
       rfl)⟩

/-- C3: when `Factory.New` reaches construction, a construction error is
returned with the whole state (and so the registry) unchanged; and when
the constructed candidate's resolved name is already registered, the
candidate is closed and discarded and the already-registered basis is
returned, with the registry unchanged — a later candidate never replaces
a registered winner. -/
theorem Factory.New_error_and_race (name : String) (st : FactoryState) :
    (∀ e, (if name ≠ "" then lookupTok st.registered name else none) = none →
        Factory.New name (Except.error e) st = (Except.error e, st))
    ∧ (∀ rname ex,
        (if name ≠ "" then lookupTok st.registered name else none) = none →
        lookupTok st.registered rname = some ex →
        Factory.New name (Except.ok rname) st =
          (Except.ok ex,
           { st with nextId := st.nextId + 1, closed := st.nextId :: st.closed })) := by
  constructor
  · intro e hmiss
    simp [Factory.New, hmiss]
  · intro rname ex hmiss hreg
    simp [Factory.New, hmiss, hreg]

/-- Witness for C3: with an empty registry under the name "alpha" but
"beta" already registered as instance 7, a failing construction returns
its error with the state unchanged, and a candidate resolving to "beta" is
closed and discarded in favour of instance 7. -/
theorem Factory.New_error_and_race_witness :
    Factory.New "alpha" (Except.error "basis construction failed")
        ⟨[("beta", 7)], 8, []⟩ =
      (Except.error "basis construction failed", ⟨[("beta", 7)], 8, []⟩)
    ∧ Factory.New "alpha" (Except.ok "beta") ⟨[("beta", 7)], 8, []⟩ =
      (Except.ok 7, { registered := [("beta", 7)], nextId := 9, closed := [8] }) :=
  ⟨(Factory.New_error_and_race "alpha" ⟨[("beta", 7)], 8, []⟩).1
      "basis construction failed" rfl,
   (Factory.New_error_and_race "alpha" ⟨[("beta", 7)], 8, []⟩).2 "beta" 7 rfl rfl⟩

/-- C4: a `Factory.New` call with a non-empty, already-registered name
returns the registered instance immediately with the state unchanged, and
its outcome does not depend on the construction function at all — no new
basis is constructed and the supplied options are not applied. -/
theorem Factory.New_registry_hit (name : String) (build build' : Except String String)
    (st : FactoryState) (b : Nat) (hname : name ≠ "")
    (hreg : lookupTok st.registered name = some b) :
    Factory.New name build st = (Except.ok b, st)
    ∧ Factory.New name build st = Factory.New name build' st := by
  have hhit : (if name ≠ "" then lookupTok st.registered name else none) = some b := by
    rw [if_pos hname, hreg]
  constructor
  · simp [Factory.New, hhit]
  · simp [Factory.New, hhit]

/-- Witness for C4: name "alpha" is registered as instance 3; `New`
returns instance 3 unchanged, whatever the construction would have done. -/
theorem Factory.New_registry_hit_witness :
    Factory.New "alpha" (Except.ok "alpha") ⟨[("alpha", 3)], 4, []⟩ =
      (Except.ok 3, ⟨[("alpha", 3)], 4, []⟩)
    ∧ Factory.New "alpha" (Except.ok "alpha") ⟨[("alpha", 3)], 4, []⟩ =
      Factory.New "alpha" (Except.error "never built") ⟨[("alpha", 3)], 4, []⟩ :=
  Factory.New_registry_hit "alpha" (Except.ok "alpha") (Except.error "never built")
    ⟨[("alpha", 3)], 4, []⟩ 3 (by simp) rfl

/-- Counterexample to C10 as stated: on a concrete `Factory.New` call the
construction event sits at position 1 of the trace, strictly between the
lock acquisition and its release — construction happens while the registry
lock is held, not without it. -/
theorem Factory.New_lock_counterexample :
    (Factory.NewEvents "alpha" (Except.ok "alpha") ⟨[], 0, []⟩)[1]? =
        some FactoryEvent.construct
    ∧ lockHeldAt (Factory.NewEvents "alpha" (Except.ok "alpha") ⟨[], 0, []⟩) 1 := by
  constructor
  · rfl
  · decide

/-- C10 amended: the registry lock is acquired at the start of every
`Factory.New` call (the first trace event is the lock acquisition) and
held until the call returns (the last trace event is the release and the
lock is held at every interior position of the trace); in particular both
Basis construction and option application happen while the lock is held. -/
theorem Factory.New_lock_held_throughout (name : String) (build : Except String String)
    (st : FactoryState) :
    (Factory.NewEvents name build st)[0]? = some FactoryEvent.lock
    ∧ (Factory.NewEvents name build st).getLast? = some FactoryEvent.unlock
    ∧ (∀ i, 0 < i → i < (Factory.NewEvents name build st).length →
        lockHeldAt (Factory.NewEvents name build st) i)
    ∧ (∀ i e, (Factory.NewEvents name build st)[i]? = some e →
        e = FactoryEvent.construct ∨ e = FactoryEvent.applyOptions →
        lockHeldAt (Factory.NewEvents name build st) i) := by
  have hmain : (Factory.NewEvents name build st)[0]? = some FactoryEvent.lock
      ∧ (Factory.NewEvents name build st).getLast? = some FactoryEvent.unlock
      ∧ (∀ i, 0 < i → i < (Factory.NewEvents name build st).length →
          lockHeldAt (Factory.NewEvents name build st) i) := by
    rcases hinit : (if name ≠ "" then lookupTok st.registered name else none) with _ | b
    · cases build with
      | error e =>
        have hevs : Factory.NewEvents name (Except.error e) st =
            [FactoryEvent.lock, FactoryEvent.construct, FactoryEvent.applyOptions,
             FactoryEvent.unlock] := by
          simp [Factory.NewEvents, hinit]
        rw [hevs]
        refine ⟨rfl, rfl, ?_⟩
        intro i h0 hl
        simp only [List.length_cons, List.length_nil] at hl
        rcases i with _ | _ | _ | _ | i
        · omega
        · decide
        · decide
        · decide
        · omega
      | ok rname =>
        rcases h2 : lookupTok st.registered rname with _ | ex
        · have hevs : Factory.NewEvents name (Except.ok rname) st =
              [FactoryEvent.lock, FactoryEvent.construct, FactoryEvent.applyOptions,
               FactoryEvent.registryWrite, FactoryEvent.unlock] := by
            simp [Factory.NewEvents, hinit, h2]
          rw [hevs]
          refine ⟨rfl, rfl, ?_⟩
          intro i h0 hl
          simp only [List.length_cons, List.length_nil] at hl
          rcases i with _ | _ | _ | _ | _ | i
          · omega
          · decide
          · decide
          · decide
          · decide
          · omega
        · have hevs : Factory.NewEvents name (Except.ok rname) st =
              [FactoryEvent.lock, FactoryEvent.construct, FactoryEvent.applyOptions,
               FactoryEvent.discardClose, FactoryEvent.unlock] := by
            simp [Factory.NewEvents, hinit, h2]
          rw [hevs]
          refine ⟨rfl, rfl, ?_⟩
          intro i h0 hl
          simp only [List.length_cons, List.length_nil] at hl
          rcases i with _ | _ | _ | _ | _ | i
          · omega
          · decide
          · decide
          · decide
          · decide
          · omega
    · have hevs : Factory.NewEvents name build st =
          [FactoryEvent.lock, FactoryEvent.unlock] := by
        simp [Factory.NewEvents, hinit]
      rw [hevs]
      refine ⟨rfl, rfl, ?_⟩
      intro i h0 hl
      simp only [List.length_cons, List.length_nil] at hl
      rcases i with _ | _ | i
      · omega
      · decide
      · omega
  refine ⟨hmain.1, hmain.2.1, hmain.2.2, ?_⟩
  intro i e hget he
  have hlt : i < (Factory.NewEvents name build st).length := by
    rcases List.getElem?_eq_some.mp hget with ⟨h, _⟩
    exact h
  have hpos : 0 < i := by
    rcases Nat.eq_zero_or_pos i with rfl | h
    · rw [hmain.1] at hget
      injection hget with h'
      rcases he with rfl | rfl <;> exact FactoryEvent.noConfusion h'
    · exact h
  exact hmain.2.2 i hpos hlt

/-- Witness for the amended C10 at a concrete call: both the construction
event (position 1) and the option-application event (position 2) of a
fresh creation happen while the lock is held. -/
theorem Factory.New_lock_held_throughout_witness :
    lockHeldAt (Factory.NewEvents "beta" (Except.error "boom") ⟨[], 0, []⟩) 1
    ∧ lockHeldAt (Factory.NewEvents "beta" (Except.error "boom") ⟨[], 0, []⟩) 2 :=
  ⟨(Factory.New_lock_held_throughout "beta" (Except.error "boom") ⟨[], 0, []⟩).2.2.2 1
      FactoryEvent.construct rfl (Or.inl rfl),
   (Factory.New_lock_held_throughout "beta" (Except.error "boom") ⟨[], 0, []⟩).2.2.2 2
      FactoryEvent.applyOptions rfl (Or.inr rfl)⟩

lemma initTargetsLoop_no_error (upsert : String → Option String) :
    ∀ (cfgs : List (Option String)) (b : Bool),
      (∀ c, some c ∈ cfgs → upsert c = none) →
      Project.InitTargetsLoop upsert cfgs b =
        (b || cfgs.any (fun x => x.isSome), none) := by
  intro cfgs
  induction cfgs with
  | nil => intro b _; simp [Project.InitTargetsLoop]
  | cons x rest ih =>
    intro b h
    cases x with
    | none =>
      simpa [Project.InitTargetsLoop] using ih b (fun c hc => h c (by simp [hc]))
    | some c =>
      have hc : upsert c = none := h c (by simp)
      simp only [Project.InitTargetsLoop, hc]
      rw [ih true (fun c' hc' => h c' (by simp [hc']))]
      simp

lemma initTargetsLoop_first_error (upsert : String → Option String) :
    ∀ (pre : List (Option String)) (c : String) (post : List (Option String))
      (e : String) (b : Bool),
      (∀ c', some c' ∈ pre → upsert c' = none) → upsert c = some e →
      Project.InitTargetsLoop upsert (pre ++ some c :: post) b =
        (b || pre.any (fun x => x.isSome), some e) := by
  intro pre
  induction pre with
  | nil =>
    intro c post e b _ hc
    simp [Project.InitTargetsLoop, hc]
  | cons x rest ih =>
    intro c post e b h hc
    cases x with
    | none =>
      simpa [Project.InitTargetsLoop]
        using ih c post e b (fun c' hc' => h c' (by simp [hc'])) hc
    | some c' =>
      have hcu : upsert c' = none := h c' (by simp)
      rw [List.cons_append]
      simp only [Project.InitTargetsLoop, hcu, List.append_eq]
      rw [ih c post e true (fun c'' hc'' => h c'' (by simp [hc''])) hc]
      simp

/-- Counterexample to C6 as stated: with entries ["web", "db"] where the
"web" upsert succeeds and the "db" upsert fails, at least one upsert
succeeded, yet `InitTargets` returns the error without refreshing the
project record. -/
theorem Project.InitTargets_refresh_counterexample :
    initUpsertMixed "web" = none
    ∧ Project.InitTargets (some [some "web", some "db"]) initUpsertMixed none =
        ⟨some "upsert failed", false⟩ :=
  ⟨rfl, rfl⟩

/-- C6 amended: `InitTargets` returns the first upsert error immediately
(without refreshing the project record); and when every upsert succeeds
and at least one machine-config entry was upserted, the project's record
is refreshed from the Persistence Client afterwards. -/
theorem Project.InitTargets_fail_fast_refresh (cfgs : List (Option String))
    (upsert : String → Option String) (refreshErr : Option String) :
    (∀ pre c post e, cfgs = pre ++ some c :: post →
        (∀ c', some c' ∈ pre → upsert c' = none) → upsert c = some e →
        Project.InitTargets (some cfgs) upsert refreshErr = ⟨some e, false⟩)
    ∧ ((∀ c, some c ∈ cfgs → upsert c = none) → (∃ c, some c ∈ cfgs) →
        Project.InitTargets (some cfgs) upsert refreshErr = ⟨refreshErr, true⟩) := by
  constructor
  · rintro pre c post e rfl hpre hc
    simp only [Project.InitTargets]
    rw [initTargetsLoop_first_error upsert pre c post e false hpre hc]
  · rintro hall ⟨c, hc⟩
    simp only [Project.InitTargets]
    rw [initTargetsLoop_no_error upsert cfgs false hall]
    have hany : cfgs.any (fun x => x.isSome) = true :=
      List.any_eq_true.mpr ⟨some c, hc, rfl⟩
    simp [hany]

/-- Witness for the amended C6: the mixed run returns the first upsert
error without refreshing; an all-successful run with one real entry
refreshes and surfaces the refresh outcome. -/
theorem Project.InitTargets_fail_fast_refresh_witness :
    Project.InitTargets (some [some "web", some "db"]) initUpsertMixed none =
      ⟨some "upsert failed", false⟩
    ∧ Project.InitTargets (some [none, some "web"]) (fun _ => none)
        (some "refresh failed") = ⟨some "refresh failed", true⟩ :=
  ⟨(Project.InitTargets_fail_fast_refresh [some "web", some "db"] initUpsertMixed
        none).1 [some "web"] "db" [] "upsert failed" rfl
      (by rintro c' hc'; simp at hc'; subst hc'; rfl) rfl,
   (Project.InitTargets_fail_fast_refresh [none, some "web"] (fun _ => none)
        (some "refresh failed")).2 (fun _ _ => rfl) ⟨"web", by simp⟩⟩

lemma close_fold_targets (targets : List (String × Option String)) :
    ∀ acc : List String × List String,
      targets.foldl
          (fun acc t => (acc.1 ++ [t.1], appendCloseErr acc.2 t.2)) acc =
        (acc.1 ++ targets.map (fun t => t.1),
         acc.2 ++ targets.filterMap (fun t => t.2)) := by
  induction targets with
  | nil => intro acc; simp
  | cons t rest ih =>
    intro acc
    rcases t with ⟨n, e⟩
    rw [List.foldl_cons, ih]
    cases e with
    | none => simp [appendCloseErr]
    | some x => simp [appendCloseErr]

lemma close_fold_closers (closers : List (Option String)) :
    ∀ acc : List String,
      closers.foldl appendCloseErr acc = acc ++ closers.filterMap id := by
  induction closers with
  | nil => intro acc; simp
  | cons e rest ih =>
    intro acc
    rw [List.foldl_cons, ih]
    cases e with
    | none => simp [appendCloseErr]
    | some x => simp [appendCloseErr]

/-- C7: `Project.Close` attempts to close every loaded target and runs
every registered closer even when some fail, the returned aggregate
contains exactly every individual failure (targets first, then closers, in
order), and the project is removed from its basis's project collection. -/
theorem Project.Close_aggregates_all (targets : List (String × Option String))
    (closers : List (Option String)) (basisProjects : List String) (name : String) :
    Project.Close targets closers basisProjects name =
      (targets.map (fun t => t.1),
       targets.filterMap (fun t => t.2) ++ closers.filterMap id,
       basisProjects.erase name) := by
  simp only [Project.Close]
  rw [close_fold_targets targets ([], [])]
  rw [close_fold_closers]
  simp

/-- C8: `TargetNames` and `TargetIds` are derived from the persisted
target-reference list: with `n` recorded targets `id-0..id-(n-1)` /
`target-0..target-(n-1)`, each returns exactly `n` entries containing
exactly those literal strings. -/
theorem Project.TargetNamesIds_exact (n : Nat) :
    (Project.TargetIds (mkTestTargetRefs n)).length = n
    ∧ (Project.TargetNames (mkTestTargetRefs n)).length = n
    ∧ (∀ s, s ∈ Project.TargetIds (mkTestTargetRefs n) ↔
        ∃ i, i < n ∧ s = "id-" ++ toString i)
    ∧ (∀ s, s ∈ Project.TargetNames (mkTestTargetRefs n) ↔
        ∃ i, i < n ∧ s = "target-" ++ toString i) := by
  refine ⟨?_, ?_, ?_, ?_⟩
  · simp [Project.TargetIds, mkTestTargetRefs]
  · simp [Project.TargetNames, mkTestTargetRefs]
  · intro s
    simp only [Project.TargetIds, mkTestTargetRefs, List.map_map, List.mem_map,
      List.mem_range, Function.comp]
    constructor
    · rintro ⟨i, hi, rfl⟩; exact ⟨i, hi, rfl⟩
    · rintro ⟨i, hi, rfl⟩; exact ⟨i, hi, rfl⟩
  · intro s
    simp only [Project.TargetNames, mkTestTargetRefs, List.map_map, List.mem_map,
      List.mem_range, Function.comp]
    constructor
    · rintro ⟨i, hi, rfl⟩; exact ⟨i, hi, rfl⟩
    · rintro ⟨i, hi, rfl⟩; exact ⟨i, hi, rfl⟩

/-- Witness for C8 at n = 3: three entries and the literal "id-2" among
the ids. -/
theorem Project.TargetNamesIds_exact_witness :
    (Project.TargetIds (mkTestTargetRefs 3)).length = 3
    ∧ "id-2" ∈ Project.TargetIds (mkTestTargetRefs 3) :=
  ⟨(Project.TargetNamesIds_exact 3).1,
   ((Project.TargetNamesIds_exact 3).2.2.1 "id-2").mpr ⟨2, by decide, by decide⟩⟩

/-- C9: evaluation of `Project.Save` at the failing input — the upsert
call fails (nil response, non-nil error). The transliterated code does not
return early: it executes `p.project = result.Project` on the nil
response, which crashes, instead of returning the error with the record
unchanged. -/
theorem Project.Save_nil_response_crash :
    Project.Save (none, some "upsert failed") ⟨"prj-1"⟩ = none := rfl
